import Mathlib

/-!
Verification development for the BookMind reading-companion application.

The TypeScript sources are shallowly embedded: strings are lists of
characters, JavaScript numbers that only ever hold integers are Nat,
and the two floating-point comparisons in the code (the 5 percent
table-of-contents threshold and the average-characters-per-page
heuristic) are modelled as exact rational comparisons, i.e.
m < len * 0.05 becomes 20 * m < len and total / pages < 50 becomes
total < 50 * pages.  Fallible operations return Option; a none result
models a thrown error or a null return, as noted at each definition.

Case-insensitive regex matching is modelled with Char.toLower (the
code only exercises the ASCII range).  The flexible search pattern the
code builds - the title is trimmed, internal whitespace collapsed, the
pieces joined with a one-or-more-whitespace matcher - is represented
directly by the list of whitespace-separated words of the title, with
a deterministic matcher: because no word may contain whitespace and no
whitespace character compares equal (case-insensitively) to a
non-whitespace character, the backtracking regex semantics coincide
with maximal-munch matching, which is what is implemented below.
-/

namespace BookMind

/-- Whitespace as matched by the JavaScript regex class backslash-s,
restricted to the code points the application encounters (space, tab,
newline, carriage return, vertical tab, form feed, no-break space). -/
def isWs (c : Char) : Bool :=
  c = ' ' || c = '\t' || c = '\n' || c = '\r' ||
  c = Char.ofNat 11 || c = Char.ofNat 12 || c = Char.ofNat 160

/-- Sentence-ending punctuation used by the speech chunker. -/
def isSentPunct (c : Char) : Bool :=
  c = '.' || c = '!' || c = '?'

/-- The characters of the bullet-stripping regex class in
prepareTextForSpeech besides the dash.  The source file stores the
bullet (U+2022) in this one regex in a double-encoded (mojibake)
form, so the class the code actually compiles contains the three
characters U+00E2, U+20AC and U+00A2 and does not match the bullet
character itself. -/
def isBulletClassChar (c : Char) : Bool :=
  c = '-' || c = Char.ofNat 226 || c = Char.ofNat 8364 || c = Char.ofNat 162

/-- The backquote character stripped by prepareTextForSpeech. -/
def btickChar : Char := Char.ofNat 96

/-- Leading and trailing whitespace removal, the semantics of
String.prototype.trim restricted to the whitespace set above. -/
def trimChars (t : List Char) : List Char :=
  ((t.dropWhile isWs).reverse.dropWhile isWs).reverse

/-- Helper for splitWords: accumulates the current word in reverse. -/
def splitWordsAux : List Char → List Char → List (List Char)
  | [], acc => if acc.isEmpty then [] else [acc.reverse]
  | c :: rest, acc =>
    if isWs c then
      if acc.isEmpty then splitWordsAux rest []
      else acc.reverse :: splitWordsAux rest []
    else splitWordsAux rest (c :: acc)

/-- The whitespace-separated words of a string, empty pieces dropped.
This is exactly the flexible pattern createFlexiblePattern builds in
src/services/pdfService.ts (trim, collapse internal whitespace, join
the escaped words with a one-or-more-whitespace matcher): the pattern
is identified with its word list. -/
def splitWords (t : List Char) : List (List Char) :=
  splitWordsAux t []

/-- JavaScript String.prototype.split on the regex backslash-s-plus:
like splitWords, but a leading (resp. trailing) empty piece is kept
when the string starts (resp. ends) with whitespace, and the empty
string splits to one empty piece.  Used by fallback tier 2 of
findChapterText, which splits the raw title this way. -/
def jsSplitWs (t : List Char) : List (List Char) :=
  if t.isEmpty then [[]]
  else
    (if isWs (t.headD 'a') then [([] : List Char)] else []) ++
    splitWords t ++
    (if isWs (t.getLastD 'a') then [([] : List Char)] else [])

/-- Join word pieces with single spaces (JavaScript Array.flatten with a
space separator). -/
def joinSpace (ws : List (List Char)) : List Char :=
  List.intercalate [' '] ws

/-- Case-insensitive literal match of a word at the head of the text;
returns the remaining text on success. -/
def matchWord : List Char → List Char → Option (List Char)
  | [], t => some t
  | _ :: _, [] => none
  | w :: ws, c :: cs =>
    if w.toLower = c.toLower then matchWord ws cs else none

/-- Consume one-or-more whitespace characters (maximal munch, which
agrees with the greedy backslash-s-plus since the following pattern
character is never whitespace). -/
def skipWs1 : List Char → Option (List Char)
  | [] => none
  | c :: cs => if isWs c then some (cs.dropWhile isWs) else none

/-- Match the flexible pattern (words separated by one-or-more
whitespace) at the head of the text; returns the remaining text. -/
def matchPat : List (List Char) → List Char → Option (List Char)
  | [], t => some t
  | [w], t => matchWord w t
  | w :: ws, t =>
    match matchWord w t with
    | none => none
    | some t1 =>
      match skipWs1 t1 with
      | none => none
      | some t2 => matchPat ws t2

/-- One pass of the global regex exec loop in findChapterText: record
every non-overlapping leftmost match position, resuming after the end
of each match.  Fuel-driven so the kernel can evaluate it; fuel
length+1 always suffices since every step consumes at least one
character.  A zero-length match (only possible for the degenerate
empty pattern, on which the JavaScript loop would never terminate) is
totalised by recording the position and advancing one character. -/
def findAllAux (pat : List (List Char)) : Nat → List Char → Nat → List Nat
  | 0, _, _ => []
  | fuel + 1, t, pos =>
    match matchPat pat t with
    | some r =>
      if t.length - r.length = 0 then
        match t with
        | [] => [pos]
        | _ :: cs => pos :: findAllAux pat fuel cs (pos + 1)
      else
        pos :: findAllAux pat fuel (t.drop (t.length - r.length))
          (pos + (t.length - r.length))
    | none =>
      match t with
      | [] => []
      | _ :: cs => findAllAux pat fuel cs (pos + 1)

/-- All match positions of the pattern in the text starting from
position pos, as collected by the exec loop with the global flag. -/
def findAll (pat : List (List Char)) (t : List Char) (pos : Nat) : List Nat :=
  findAllAux pat (t.length + 1) t pos

/-- Position of the first (leftmost) match of the pattern in the text,
the semantics of a single non-global exec call. -/
def firstMatch (pat : List (List Char)) : List Char → Option Nat
  | [] => if (matchPat pat []).isSome then some 0 else none
  | c :: cs =>
    if (matchPat pat (c :: cs)).isSome then some 0
    else (firstMatch pat cs).map (· + 1)

/-- The table-of-contents avoidance pick in findChapterText: with at
least two matches whose first lies in the first 5 percent of the text,
take the second, else the first.  The JavaScript comparison
matches[0] < fullText.length * 0.05 is modelled exactly over the
rationals as 20 * m0 < len. -/
def pickStart (ms : List Nat) (len : Nat) : Option Nat :=
  match ms with
  | [] => none
  | [m0] => some m0
  | m0 :: m1 :: _ => if 20 * m0 < len then some m1 else some m0

/-- Length of the anchored match of a keyword followed by
one-or-more whitespace and one-or-more digits (the regex
Chapter-backslash-s-plus-backslash-d-plus, case-insensitive), at the
start of the text. -/
def kwNumLen (kw t : List Char) : Option Nat :=
  match matchWord kw t with
  | none => none
  | some r1 =>
    if (r1.dropWhile isWs).length = r1.length then none
    else
      if ((r1.dropWhile isWs).dropWhile Char.isDigit).length
          = (r1.dropWhile isWs).length then none
      else some (t.length - ((r1.dropWhile isWs).dropWhile Char.isDigit).length)

/-- The matched text of title.match on the anchored regex
(Chapter-number or Part-number prefix, case-insensitive), used by
fallback tier 3 of findChapterText. -/
def chapterNumMatch (title : List Char) : Option (List Char) :=
  match kwNumLen ("Chapter".data) title with
  | some l => some (title.take l)
  | none =>
    match kwNumLen ("Part".data) title with
    | some l => some (title.take l)
    | none => none

/-- The start index selected by findChapterText
(src/services/pdfService.ts): tier 1 is the exact-title pattern with
TOC avoidance; tier 2 (titles of more than 3 split pieces) retries
with the first 8 pieces, first match only; tier 3 retries with a
leading Chapter-number or Part-number prefix with TOC avoidance. -/
def findStart (fullText title : List Char) : Option Nat :=
  match pickStart (findAll (splitWords title) fullText 0) fullText.length with
  | some s => some s
  | none =>
    match
      (if 3 < (jsSplitWs title).length then
        firstMatch (splitWords (joinSpace ((jsSplitWs title).take 8))) fullText
      else none) with
    | some s => some s
    | none =>
      match chapterNumMatch title with
      | some pre => pickStart (findAll (splitWords pre) fullText 0) fullText.length
      | none => none

/-- The end index selected by findChapterText: when a (truthy, hence
nonempty) next-chapter title is supplied, the first match of its
flexible pattern in the text sliced from start + min(titleLength, 50),
else the end of the document. -/
def findEnd (fullText title : List Char) (next : Option (List Char)) (s : Nat) : Nat :=
  match next with
  | none => fullText.length
  | some nt =>
    if nt.isEmpty then fullText.length
    else
      match firstMatch (splitWords nt) (fullText.drop (s + min title.length 50)) with
      | some j => s + min title.length 50 + j
      | none => fullText.length

/-- The span (startIndex, endIndex) computed by findChapterText before
slicing; none models the null return after all tiers fail. -/
def findChapterSpan (fullText title : List Char) (next : Option (List Char)) :
    Option (Nat × Nat) :=
  match findStart fullText title with
  | none => none
  | some s => some (s, findEnd fullText title next s)

/-- The character cap applied to the extracted span. -/
def CHAR_LIMIT : Nat := 1000000

/-- The truncation marker appended past the cap. -/
def truncNotice : List Char := "... [Text truncated]".data

/-- Cap an extracted span at CHAR_LIMIT characters, appending the
truncation marker when it was longer. -/
def capText (t : List Char) : List Char :=
  if CHAR_LIMIT < t.length then t.take CHAR_LIMIT ++ truncNotice else t

/-- findChapterText from src/services/pdfService.ts: the selected span
sliced out of the full text (slice is end-exclusive), capped and
trimmed; none models the null returned when every tier fails. -/
def findChapterText (fullText title : List Char) (next : Option (List Char)) :
    Option (List Char) :=
  match findChapterSpan fullText title next with
  | none => none
  | some (s, e) => some (trimChars (capText ((fullText.take e).drop s)))

/-! ## Data model (src/types.ts) -/

/-- Chapter as produced by the identification call. -/
structure Chapter where
  number : List Char
  title : List Char
  description : List Char
deriving DecidableEq

/-- The closed enumeration of analysis styles. -/
inductive AnalysisType where
  | standard
  | detailed
  | insights
  | critical
deriving DecidableEq

/-- The application screens. -/
inductive AppStep where
  | upload
  | chapters
  | analysis
deriving DecidableEq

/-! ## Text extraction (extractTextFromPDF, src/services/pdfService.ts) -/

/-- The page banner the extractor prepends to each nonempty page. -/
def pageHeader (i : Nat) : List Char :=
  ("--- Page ".data) ++ (Nat.repr i).data ++ (" ---".data) ++ ['\n']

/-- Accumulates the page texts (with banners, skipping pages whose
trimmed text is empty) and the total trimmed content length, starting
from page number i. -/
def extractPages : Nat → List (List Char) → List Char × Nat
  | _, [] => ([], 0)
  | i, p :: ps =>
    if 0 < (trimChars p).length then
      (pageHeader i ++ p ++ ['\n', '\n'] ++ (extractPages (i + 1) ps).1,
       (trimChars p).length + (extractPages (i + 1) ps).2)
    else extractPages (i + 1) ps

/-- extractTextFromPDF on the list of per-page extracted texts:
returns the trimmed accumulated text and the scanned-document flag.
The flag is numPages > 0 and average content per page below 50; the
JavaScript floating division total / pages < 50 is modelled exactly
over the rationals as total < 50 * pages. -/
def extractTextFromPDF (pages : List (List Char)) : List Char × Bool :=
  (trimChars (extractPages 1 pages).1,
   decide (0 < pages.length) && decide ((extractPages 1 pages).2 < 50 * pages.length))

/-! ## Remote request shaping (src/services/geminiService.ts) -/

/-- The content-bearing shape of an identifyChapters request: either
the document bytes (inline data part) or a text excerpt, never both. -/
structure IdentifyRequest where
  docBytes : Option (List Char)
  textContext : Option (List Char)
deriving DecidableEq

/-- identifyChapters request shaping: with a truthy (nonempty) base64
payload the document bytes are sent, else the first 60000 characters
of the text. -/
def identifyRequest (pdfText : List Char) (pdfBase64 : Option (List Char)) :
    IdentifyRequest :=
  match pdfBase64 with
  | some b =>
    if b.isEmpty then { docBytes := none, textContext := some (pdfText.take 60000) }
    else { docBytes := some b, textContext := none }
  | none => { docBytes := none, textContext := some (pdfText.take 60000) }

/-- The content path taken by an analyzeChapterContent request: either
the isolated chapter text or the whole document bytes. -/
inductive AnalyzeReq where
  | textMode (chapterText : List Char)
  | docMode (docBytes : List Char)
deriving DecidableEq

/-- The document-bytes fallback of analyzeChapterContent: a truthy
(nonempty) base64 payload gives the visual path, else none, which
models the insufficient-content error thrown before any remote call
is issued. -/
def fallbackDoc (pdfBase64 : Option (List Char)) : Option AnalyzeReq :=
  match pdfBase64 with
  | some d => if d.isEmpty then none else some (AnalyzeReq.docMode d)
  | none => none

/-- analyzeChapterContent content selection
(src/services/geminiService.ts): chapter text of more than 100
characters takes the text path, else the document-bytes fallback. -/
def analyzeRequest (chapterText : Option (List Char)) (pdfBase64 : Option (List Char)) :
    Option AnalyzeReq :=
  match chapterText with
  | some t => if 100 < t.length then some (AnalyzeReq.textMode t) else fallbackDoc pdfBase64
  | none => fallbackDoc pdfBase64

/-! ## App-level analysis action (handleChapterAnalysis and
handleFileSelect in the library-variant App component) -/

/-- The next chapter whose title bounds the current chapter's text:
findIndex on the (number, title) pair, then the following element if
one exists. -/
def nextChapterTitle (chapters : List Chapter) (chapter : Chapter) :
    Option (List Char) :=
  match chapters.findIdx? (fun c => c.number == chapter.number && c.title == chapter.title) with
  | some i =>
    if i + 1 < chapters.length then (chapters[i + 1]?).map (fun c => c.title)
    else none
  | none => none

/-- The analysis request issued by handleChapterAnalysis: in scanned
mode the extracted text is skipped outright; in text mode a locator
result that is null or shorter than 200 characters is discarded
(chapterContent reset to null) so the request falls back to the whole
document bytes. -/
def chapterAnalysisRequest (isScannedMode : Bool) (pdfText : List Char)
    (chapters : List Chapter) (chapter : Chapter) (pdfBase64 : List Char) :
    Option AnalyzeReq :=
  analyzeRequest
    (if isScannedMode then none
     else
       match findChapterText pdfText chapter.title (nextChapterTitle chapters chapter) with
       | none => none
       | some t => if t.length < 200 then none else some t)
    (some pdfBase64)

/-- The mode decision in handleFileSelect: the extractor's scanned
flag, or extracted text shorter than 500 characters. -/
def decideScannedMode (isScanned : Bool) (textLen : Nat) : Bool :=
  isScanned || decide (textLen < 500)

/-- The identification request issued by handleFileSelect after
extraction: text path with the extracted text when the mode decision
is not scanned, else the document bytes. -/
def fileSelectIdentifyRequest (pages : List (List Char)) (base64 : List Char) :
    IdentifyRequest :=
  identifyRequest
    (if decideScannedMode (extractTextFromPDF pages).2 (extractTextFromPDF pages).1.length
     then [] else (extractTextFromPDF pages).1)
    (if decideScannedMode (extractTextFromPDF pages).2 (extractTextFromPDF pages).1.length
     then some base64 else none)

/-! ## Text cleaning for speech (prepareTextForSpeech, chunked
variant in the library App's geminiService) -/

/-- Global removal of the two-character bold marker (two asterisks),
non-overlapping left to right. -/
def removeBold : List Char → List Char
  | [] => []
  | [c] => [c]
  | c :: d :: rest =>
    if c = '*' ∧ d = '*' then removeBold rest
    else c :: removeBold (d :: rest)

/-- Global removal of single asterisks (italics markers). -/
def removeStars (t : List Char) : List Char :=
  t.filter (fun c => (c != '*'))

/-- Global removal of markdown headers: one to six hash characters
(greedy) followed by an optional single whitespace character.
Fuel-driven scanner; fuel length+1 suffices. -/
def removeHeadersAux : Nat → List Char → List Char
  | 0, t => t
  | _ + 1, [] => []
  | fuel + 1, c :: rest =>
    if c = '#' then
      removeHeadersAux fuel
        (match rest.drop ((rest.take 5).takeWhile (fun x => x = '#')).length with
         | [] => []
         | w :: r2 => if isWs w then r2 else w :: r2)
    else c :: removeHeadersAux fuel rest

/-- Wrapper supplying the fuel for removeHeadersAux. -/
def removeHeaders (t : List Char) : List Char :=
  removeHeadersAux (t.length + 1) t

/-- Global removal of backquote characters. -/
def removeBticks (t : List Char) : List Char :=
  t.filter (fun c => (c != btickChar))

/-- Global replacement of markdown links by their link text: an
opening bracket, one-or-more non-closing-bracket characters, a
closing bracket, an opening parenthesis, one-or-more
non-closing-parenthesis characters, a closing parenthesis, replaced
by the bracketed text.  Fuel-driven scanner. -/
def removeLinksAux : Nat → List Char → List Char
  | 0, t => t
  | _ + 1, [] => []
  | fuel + 1, c :: rest =>
    if c = '[' then
      match rest.drop (rest.takeWhile (fun x => (x != ']'))).length with
      | ']' :: '(' :: r2 =>
        if (rest.takeWhile (fun x => (x != ']'))).isEmpty then
          c :: removeLinksAux fuel rest
        else
          match r2.drop (r2.takeWhile (fun x => (x != ')'))).length with
          | ')' :: r3 =>
            if (r2.takeWhile (fun x => (x != ')'))).isEmpty then
              c :: removeLinksAux fuel rest
            else
              rest.takeWhile (fun x => (x != ']')) ++ removeLinksAux fuel r3
          | _ => c :: removeLinksAux fuel rest
      | _ => c :: removeLinksAux fuel rest
    else c :: removeLinksAux fuel rest

/-- Wrapper supplying the fuel for removeLinksAux. -/
def removeLinks (t : List Char) : List Char :=
  removeLinksAux (t.length + 1) t

/-- Global multiline replacement of bullet lines: at a line start,
any run of whitespace, then a character of the bullet regex class,
then one whitespace character, replaced by a comma and a space.  The
greedy whitespace run is deterministic: only the maximal run can be
followed by a class character, none of which is whitespace.  The flag
records whether the current position is a line start (start of string
or just after a newline). -/
def replaceBulletsAux : Nat → Bool → List Char → List Char
  | 0, _, t => t
  | _ + 1, _, [] => []
  | fuel + 1, false, c :: rest => c :: replaceBulletsAux fuel (c == '\n') rest
  | fuel + 1, true, c :: rest =>
    match (c :: rest).drop ((c :: rest).takeWhile isWs).length with
    | b :: w :: r2 =>
      if isBulletClassChar b && isWs w then
        ',' :: ' ' :: replaceBulletsAux fuel (w == '\n') r2
      else c :: replaceBulletsAux fuel (c == '\n') rest
    | _ => c :: replaceBulletsAux fuel (c == '\n') rest

/-- Wrapper supplying the fuel for replaceBulletsAux. -/
def replaceBullets (t : List Char) : List Char :=
  replaceBulletsAux (t.length + 1) true t

/-- Global replacement of newline runs by a full stop and a space. -/
def collapseNewlinesAux : Nat → List Char → List Char
  | 0, t => t
  | _ + 1, [] => []
  | fuel + 1, c :: rest =>
    if c = '\n' then
      '.' :: ' ' :: collapseNewlinesAux fuel (rest.dropWhile (fun x => x = '\n'))
    else c :: collapseNewlinesAux fuel rest

/-- Wrapper supplying the fuel for collapseNewlinesAux. -/
def collapseNewlines (t : List Char) : List Char :=
  collapseNewlinesAux (t.length + 1) t

/-- prepareTextForSpeech of the chunked generateSpeech (no character
cap in this variant): strip bold, italics, headers, backquotes and
links, turn bullet lines into comma pauses and newline runs into full
stops, in exactly the replacement order of the source. -/
def prepareTextForSpeech (t : List Char) : List Char :=
  collapseNewlines (replaceBullets (removeLinks (removeBticks
    (removeHeaders (removeStars (removeBold t))))))

/-! ## Sentence splitting and chunking (generateSpeech, chunked
variant) -/

/-- The global match list of the sentence regex: one-or-more
non-sentence-punctuation characters followed by one-or-more
sentence-punctuation characters, or else a whitespace run reaching
the end of the string (which also yields a final empty match at the
very end, as the JavaScript global match loop does). -/
def sentencesAux : Nat → List Char → List (List Char)
  | 0, _ => []
  | _ + 1, [] => [[]]
  | fuel + 1, c :: rest =>
    if ((c :: rest).takeWhile (fun x => !isSentPunct x)).isEmpty
        || (((c :: rest).dropWhile (fun x => !isSentPunct x)).takeWhile isSentPunct).isEmpty then
      if ((c :: rest).dropWhile isWs).isEmpty then
        (c :: rest) :: sentencesAux fuel []
      else sentencesAux fuel rest
    else
      ((c :: rest).takeWhile (fun x => !isSentPunct x)
          ++ ((c :: rest).dropWhile (fun x => !isSentPunct x)).takeWhile isSentPunct)
        :: sentencesAux fuel
            (((c :: rest).dropWhile (fun x => !isSentPunct x)).dropWhile isSentPunct)

/-- Wrapper supplying the fuel for sentencesAux. -/
def sentencesOf (t : List Char) : List (List Char) :=
  sentencesAux (t.length + 1) t

/-- The per-chunk character ceiling of the chunked generateSpeech. -/
def MAX_CHUNK_LENGTH : Nat := 3000

/-- The greedy sentence-packing loop: a sentence that would push the
current chunk past the ceiling closes the chunk (dropped when its
trimmed content is empty) and starts a new one. -/
def buildChunks : List (List Char) → List Char → List (List Char)
  | [], cur => if (trimChars cur).isEmpty then [] else [cur]
  | s :: ss, cur =>
    if MAX_CHUNK_LENGTH < cur.length + s.length then
      if (trimChars cur).isEmpty then buildChunks ss s
      else cur :: buildChunks ss s
    else buildChunks ss (cur ++ s)

/-- The chunk list of generateSpeech: text within the ceiling is one
chunk, else the sentence matches are packed greedily.  The null-match
fallback of the source is dead code (the sentence regex always
matches at the end) but is modelled anyway. -/
def chunkText (safeText : List Char) : List (List Char) :=
  if safeText.length ≤ MAX_CHUNK_LENGTH then [safeText]
  else
    buildChunks
      (if (sentencesOf safeText).isEmpty then [safeText] else sentencesOf safeText) []

/-- The sequential per-chunk request loop of generateSpeech: chunks
with empty trimmed content are skipped without a request; a chunk
whose response carries no audio contributes nothing.  The remote
speech service is an oracle mapping the chunk text to its optional
raw audio bytes. -/
def speechLoop (tts : List Char → Option (List Nat)) :
    List (List Char) → List (List Nat)
  | [] => []
  | c :: cs =>
    if (trimChars c).isEmpty then speechLoop tts cs
    else
      match tts c with
      | some b => b :: speechLoop tts cs
      | none => speechLoop tts cs

/-- The byte concatenation of the audio segments (the offset-driven
copy loop into the combined buffer). -/
def concatBytes : List (List Nat) → List Nat
  | [] => []
  | s :: ss => s ++ concatBytes ss

/-- generateSpeech, chunked variant: clean, chunk, request each chunk
in source order, concatenate the raw sample bytes in that order; none
models the no-audio-generated error. -/
def generateSpeech (tts : List Char → Option (List Nat)) (text : List Char) :
    Option (List Nat) :=
  if (speechLoop tts (chunkText (prepareTextForSpeech text))).isEmpty then none
  else some (concatBytes (speechLoop tts (chunkText (prepareTextForSpeech text))))

/-! ## Raw-PCM audio decoding (AnalysisView audio helpers) -/

/-- A 16-bit little-endian signed sample from two bytes (the
Int16Array view over the underlying buffer; typed-array stores reduce
the bytes modulo 256). -/
def int16FromLE (lo hi : Nat) : Int :=
  if lo % 256 + 256 * (hi % 256) < 32768 then ((lo % 256 + 256 * (hi % 256) : Nat) : Int)
  else ((lo % 256 + 256 * (hi % 256) : Nat) : Int) - 65536

/-- The Int16Array view of a byte list: consecutive little-endian
pairs; a view over an odd-length buffer is a construction error in
JavaScript and never arises here because decodeBase64 truncates to
even length. -/
def pcmSamples : List Nat → List Int
  | [] => []
  | [_] => []
  | lo :: hi :: rest => int16FromLE lo hi :: pcmSamples rest

/-- The decoded audio buffer: fixed sample rate and channel count and
the normalised float samples, modelled as exact rationals (each
sample divided by 32768 is exactly representable). -/
structure AudioBufferModel where
  sampleRate : Nat
  numChannels : Nat
  samples : List ℚ
deriving DecidableEq

/-- decodeAudioData: interpret the bytes as 16-bit little-endian
signed mono samples at 24000 Hz and normalise each by dividing by
32768; none models the Int16Array construction error on an
odd-length buffer. -/
def decodeAudioData (data : List Nat) : Option AudioBufferModel :=
  if data.length % 2 = 0 then
    some { sampleRate := 24000, numChannels := 1,
           samples := (pcmSamples data).map (fun s : Int => (s : ℚ) / 32768) }
  else none

/-- decodeBase64 of the AnalysisView audio path, taken past the atob
browser primitive (an external collaborator): the decoded binary
string is the input, and the byte array is filled only up to the
largest even length, dropping a trailing odd byte. -/
def decodeBase64 (binaryString : List Nat) : List Nat :=
  ((binaryString.take (binaryString.length - binaryString.length % 2)).map
    (fun b => b % 256))

/-! ## Session management (library-variant App component) -/

/-- A book session as stored in the library. -/
structure BookSession where
  id : List Char
  fileName : List Char
  uploadTimestamp : Nat
  chapters : List Chapter
  pdfText : List Char
  pdfBase64 : List Char
  isScannedMode : Bool
deriving DecidableEq

/-- The top-level component state touched by the session actions. -/
structure AppState where
  sessions : List BookSession
  activeSessionId : Option (List Char)
  isLibraryOpen : Bool
  step : AppStep
  pdfText : List Char
  pdfBase64 : List Char
  isScannedMode : Bool
  chapters : List Chapter
  selectedChapter : Option Chapter
  currentAnalysis : List Char
  currentAnalysisType : AnalysisType
  loading : Bool
  error : List Char
deriving DecidableEq

/-- loadSession: activate a session and restore its view state. -/
def loadSession (st : AppState) (session : BookSession) : AppState :=
  { st with
    activeSessionId := some session.id,
    pdfText := session.pdfText,
    pdfBase64 := session.pdfBase64,
    isScannedMode := session.isScannedMode,
    chapters := session.chapters,
    selectedChapter := none,
    currentAnalysis := [],
    step := AppStep.chapters,
    error := [],
    loading := false,
    isLibraryOpen := false }

/-- handleUploadNew: return to the upload screen, clearing the active
session but keeping the library. -/
def handleUploadNew (st : AppState) : AppState :=
  { st with
    step := AppStep.upload,
    error := [],
    activeSessionId := none,
    selectedChapter := none }

/-- removeSession: drop every session with the given id; when the
active session was removed, activate the first remaining session, or
return to the upload screen when none remain. -/
def removeSession (st : AppState) (sid : List Char) : AppState :=
  if st.activeSessionId = some sid then
    match st.sessions.filter (fun s => (s.id != sid)) with
    | s :: rest =>
      loadSession { st with sessions := s :: rest } s
    | [] => handleUploadNew { st with sessions := [] }
  else { st with sessions := st.sessions.filter (fun s => (s.id != sid)) }

/-! ## Theorems -/

/-- C1: for every full text and chapter title, when the
whitespace-tolerant case-insensitive pattern built from the exact
title occurs at least twice in the text (occurrences being the
non-overlapping matches the global exec loop records) and the first
occurrence lies within the first 5 percent of the text's length,
findChapterText starts the returned span at the second occurrence;
otherwise, when at least one occurrence exists, it starts the span at
the first occurrence. -/
theorem findChapterText_tocAvoidance (fullText title : List Char)
    (next : Option (List Char)) (m0 : Nat) (ms : List Nat)
    (h : findAll (splitWords title) fullText 0 = m0 :: ms) :
    (ms = [] → (findChapterSpan fullText title next).map Prod.fst = some m0)
    ∧ ∀ m1 rest, ms = m1 :: rest →
        (findChapterSpan fullText title next).map Prod.fst =
          some (if 20 * m0 < fullText.length then m1 else m0) := by
  constructor
  · intro hms
    subst hms
    unfold findChapterSpan findStart
    rw [h]
    simp [pickStart]
  · intro m1 rest hms
    subst hms
    unfold findChapterSpan findStart
    rw [h]
    by_cases h5 : 20 * m0 < fullText.length <;> simp [pickStart, h5]

/-- Witness for C1: in the text "ab x ab end" the title "ab" occurs
at 0 and 5, and since 0 lies within the first 5 percent the span
starts at the second occurrence. -/
theorem findChapterText_tocAvoidance_witness :
    findAll (splitWords ("ab".data)) ("ab x ab end".data) 0 = [0, 5] ∧
    (findChapterSpan ("ab x ab end".data) ("ab".data) none).map Prod.fst = some 5 := by
  refine ⟨by decide, ?_⟩
  have h := (findChapterText_tocAvoidance ("ab x ab end".data) ("ab".data) none 0 [5]
      (by decide)).2 5 [] rfl
  rw [h]
  decide

/-- C2: for every full text, chapter title and nonempty supplied
next-chapter title, once a start index is detected findChapterText
searches for the next-chapter pattern from the absolute offset
start + min(titleLength, 50); a first match at relative index j makes
the span end exactly at the matched absolute start position
offset + j (the slice being end-exclusive, the returned text draws
only on characters strictly before that position), and with no match
the span extends to the end of the document. -/
theorem findChapterText_endBoundary (fullText title nt : List Char) (s : Nat)
    (hnt : nt ≠ []) (hs : findStart fullText title = some s) :
    (∀ j, firstMatch (splitWords nt) (fullText.drop (s + min title.length 50)) = some j →
        findChapterSpan fullText title (some nt) = some (s, s + min title.length 50 + j) ∧
        findChapterText fullText title (some nt) =
          some (trimChars (capText ((fullText.take (s + min title.length 50 + j)).drop s))))
    ∧ (firstMatch (splitWords nt) (fullText.drop (s + min title.length 50)) = none →
        findChapterSpan fullText title (some nt) = some (s, fullText.length) ∧
        findChapterText fullText title (some nt) =
          some (trimChars (capText ((fullText.take fullText.length).drop s)))) := by
  have hne : nt.isEmpty = false := by
    cases nt with
    | nil => exact absurd rfl hnt
    | cons c cs => rfl
  constructor
  · intro j hj
    constructor
    · unfold findChapterSpan
      rw [hs]
      unfold findEnd
      simp [hne, hj]
    · unfold findChapterText findChapterSpan
      rw [hs]
      unfold findEnd
      simp [hne, hj]
  · intro hj
    constructor
    · unfold findChapterSpan
      rw [hs]
      unfold findEnd
      simp [hne, hj]
    · unfold findChapterText findChapterSpan
      rw [hs]
      unfold findEnd
      simp [hne, hj]

/-- Witness for C2: title "Alpha" is found at 0, the next title
"BETA" is searched from offset 0 + min(5, 50) = 5 and found at
relative index 15, so the span is [0, 20) and the returned text stops
strictly before the matched position 20. -/
theorem findChapterText_endBoundary_witness :
    findChapterSpan ("Alpha one two three BETA rest".data) ("Alpha".data)
        (some ("BETA".data)) = some (0, 20) ∧
    findChapterText ("Alpha one two three BETA rest".data) ("Alpha".data)
        (some ("BETA".data)) = some ("Alpha one two three".data) := by
  have h := (findChapterText_endBoundary ("Alpha one two three BETA rest".data)
    ("Alpha".data) ("BETA".data) 0 (by decide) (by decide)).1 15 (by decide)
  exact ⟨h.1, by rw [h.2]; decide⟩

/-- C3: for every full text and chapter title whose exact-title
pattern has no occurrence, findChapterText falls back in order: with
more than 3 whitespace-split pieces of the title it retries with the
first 8 pieces, first case-insensitive match, no TOC avoidance; when
that fails too and the title begins with a Chapter-number or
Part-number prefix it searches for the prefix alone under the tier-1
TOC-avoidance rule; and when every tier fails it returns null. -/
theorem findChapterText_fallbackTiers (fullText title : List Char)
    (next : Option (List Char))
    (h1 : findAll (splitWords title) fullText 0 = []) :
    (∀ j, 3 < (jsSplitWs title).length →
        firstMatch (splitWords (joinSpace ((jsSplitWs title).take 8))) fullText = some j →
        (findChapterSpan fullText title next).map Prod.fst = some j)
    ∧ ((3 < (jsSplitWs title).length →
          firstMatch (splitWords (joinSpace ((jsSplitWs title).take 8))) fullText = none) →
        (∀ pre m0, chapterNumMatch title = some pre →
            findAll (splitWords pre) fullText 0 = [m0] →
            (findChapterSpan fullText title next).map Prod.fst = some m0)
        ∧ (∀ pre m0 m1 rest, chapterNumMatch title = some pre →
            findAll (splitWords pre) fullText 0 = m0 :: m1 :: rest →
            (findChapterSpan fullText title next).map Prod.fst =
              some (if 20 * m0 < fullText.length then m1 else m0))
        ∧ (∀ pre, chapterNumMatch title = some pre →
            findAll (splitWords pre) fullText 0 = [] →
            findChapterText fullText title next = none)
        ∧ (chapterNumMatch title = none →
            findChapterText fullText title next = none)) := by
  have htier2 : ∀ r, (3 < (jsSplitWs title).length →
      firstMatch (splitWords (joinSpace ((jsSplitWs title).take 8))) fullText = r) →
      (if 3 < (jsSplitWs title).length then
        firstMatch (splitWords (joinSpace ((jsSplitWs title).take 8))) fullText
      else none) = (if 3 < (jsSplitWs title).length then r else none) := by
    intro r hr
    by_cases h3 : 3 < (jsSplitWs title).length
    · rw [if_pos h3, if_pos h3, hr h3]
    · rw [if_neg h3, if_neg h3]
  constructor
  · intro j h3 hj
    unfold findChapterSpan findStart
    rw [h1]
    simp [pickStart, h3, hj]
  · intro h2
    refine ⟨?_, ?_, ?_, ?_⟩
    · intro pre m0 hpre hall
      unfold findChapterSpan findStart
      rw [h1, htier2 none h2, hpre]
      simp [pickStart, hall]
    · intro pre m0 m1 rest hpre hall
      unfold findChapterSpan findStart
      rw [h1, htier2 none h2, hpre]
      by_cases h5 : 20 * m0 < fullText.length <;> simp [pickStart, hall, h5]
    · intro pre hpre hall
      unfold findChapterText findChapterSpan findStart
      rw [h1, htier2 none h2, hpre]
      simp [pickStart, hall]
    · intro hpre
      unfold findChapterText findChapterSpan findStart
      rw [h1, htier2 none h2, hpre]
      simp [pickStart]

/-- Witness for C3: a nine-word title absent from the text falls back
to its first eight words, found at index 3 with no TOC avoidance. -/
theorem findChapterText_fallbackTiers_witness :
    (findChapterSpan ("xx alpha beta gamma delta eps zeta eta theta yy".data)
        ("alpha beta gamma delta eps zeta eta theta QQQ".data) none).map Prod.fst
      = some 3 :=
  (findChapterText_fallbackTiers
      ("xx alpha beta gamma delta eps zeta eta theta yy".data)
      ("alpha beta gamma delta eps zeta eta theta QQQ".data) none (by decide)).1
    3 (by decide) (by decide)

/-- Auxiliary: when every page's trimmed text is empty, the extractor
accumulates no text and no content length. -/
theorem extractPages_allEmpty : ∀ (i : Nat) (pages : List (List Char)),
    (∀ p ∈ pages, trimChars p = []) → extractPages i pages = ([], 0)
  | _, [], _ => rfl
  | i, p :: ps, h => by
    have hp : trimChars p = [] := h p (List.mem_cons_self p ps)
    have ih := extractPages_allEmpty (i + 1) ps (fun q hq => h q (List.mem_cons_of_mem p hq))
    simp [extractPages, hp, ih]

/-- C4: the scanned mode decided at upload is true exactly when the
extractor flags the document or the extracted text is shorter than
500 characters; in a scanned-mode session every chapter-analysis
request is issued with the whole document bytes and no extracted
chapter text; and when every page yields empty text the
chapter-identification call carries the document bytes, not text. -/
theorem scannedMode_invariant :
    (∀ (isScanned : Bool) (textLen : Nat),
        decideScannedMode isScanned textLen = true ↔ (isScanned = true ∨ textLen < 500))
    ∧ (∀ (pdfText : List Char) (chapters : List Chapter) (chapter : Chapter)
        (pdfBase64 : List Char), pdfBase64 ≠ [] →
        chapterAnalysisRequest true pdfText chapters chapter pdfBase64 =
          some (AnalyzeReq.docMode pdfBase64))
    ∧ (∀ (pages : List (List Char)) (base64 : List Char), pages ≠ [] →
        (∀ p ∈ pages, trimChars p = []) → base64 ≠ [] →
        fileSelectIdentifyRequest pages base64 =
          { docBytes := some base64, textContext := none }) := by
  refine ⟨?_, ?_, ?_⟩
  · intro isScanned textLen
    unfold decideScannedMode
    simp
  · intro pdfText chapters chapter pdfBase64 hb
    unfold chapterAnalysisRequest analyzeRequest fallbackDoc
    cases pdfBase64 with
    | nil => exact absurd rfl hb
    | cons b bs => simp
  · intro pages base64 hpages hempty hb
    have he := extractPages_allEmpty 1 pages hempty
    unfold fileSelectIdentifyRequest extractTextFromPDF decideScannedMode identifyRequest
    rw [he]
    cases base64 with
    | nil => exact absurd rfl hb
    | cons b bs => simp [trimChars]

/-- Witness for C4: two all-whitespace pages force scanned mode, and
the identification request carries the document bytes. -/
theorem scannedMode_invariant_witness :
    decideScannedMode false 499 = true ∧
    chapterAnalysisRequest true ("text".data) [] ⟨"1".data, "T".data, []⟩ ['x'] =
      some (AnalyzeReq.docMode ['x']) ∧
    fileSelectIdentifyRequest [[' '], []] ['x'] =
      { docBytes := some ['x'], textContext := none } := by
  refine ⟨?_, ?_, ?_⟩
  · exact (scannedMode_invariant.1 false 499).mpr (Or.inr (by decide))
  · exact scannedMode_invariant.2.1 ("text".data) [] ⟨"1".data, "T".data, []⟩ ['x']
      (by decide)
  · exact scannedMode_invariant.2.2 [[' '], []] ['x'] (by decide) (by decide) (by decide)

/-- C5 counterexample: extracted chapter text of exactly 100
characters (at least 100, as the claim demands) does not take the
text path: the code requires strictly more than 100 characters, so
with document bytes available the request is issued in whole-document
mode instead. -/
theorem analyzeRequest_hundredChars_counterexample :
    analyzeRequest (some (List.replicate 100 'a')) (some ['x'])
        = some (AnalyzeReq.docMode ['x'])
    ∧ 100 ≤ (List.replicate 100 'a').length := by decide

/-- C5 (amended): analyzeChapterContent takes the text path exactly
when extracted chapter text of more than 100 characters is provided;
otherwise, with (nonempty) document bytes provided, it sends the
whole document; and with neither it fails with the
insufficient-content error before any remote request is issued
(modelled by the none result, produced before the request is
built). -/
theorem analyzeRequest_paths (ct pb : Option (List Char)) :
    (∀ t, ct = some t → 100 < t.length →
        analyzeRequest ct pb = some (AnalyzeReq.textMode t))
    ∧ ((∀ t, ct = some t → t.length ≤ 100) →
        (∀ d, pb = some d → d ≠ [] →
            analyzeRequest ct pb = some (AnalyzeReq.docMode d))
        ∧ (pb = none ∨ pb = some [] → analyzeRequest ct pb = none)) := by
  constructor
  · intro t hct h100
    subst hct
    unfold analyzeRequest
    simp [h100]
  · intro hle
    have hnot : ∀ t, ct = some t → ¬ 100 < t.length := by
      intro t ht
      exact Nat.not_lt.mpr (hle t ht)
    constructor
    · intro d hpb hd
      subst hpb
      unfold analyzeRequest fallbackDoc
      cases ct with
      | none =>
        cases d with
        | nil => exact absurd rfl hd
        | cons b bs => simp
      | some t =>
        cases d with
        | nil => exact absurd rfl hd
        | cons b bs => simp [hnot t rfl]
    · intro hpb
      unfold analyzeRequest fallbackDoc
      rcases hpb with hpb | hpb <;> subst hpb <;>
        cases ct with
        | none => simp
        | some t => simp [hnot t rfl]

/-- Witness for C5 (amended): 101 characters take the text path, a
short text with nonempty bytes takes the document path, and a short
text with no bytes is the insufficient-content error. -/
theorem analyzeRequest_paths_witness :
    analyzeRequest (some (List.replicate 101 'a')) (some ['x'])
        = some (AnalyzeReq.textMode (List.replicate 101 'a'))
    ∧ analyzeRequest (some ['h', 'i']) (some ['x']) = some (AnalyzeReq.docMode ['x'])
    ∧ analyzeRequest (some ['h', 'i']) none = none := by
  refine ⟨?_, ?_, ?_⟩
  · exact (analyzeRequest_paths (some (List.replicate 101 'a')) (some ['x'])).1
      (List.replicate 101 'a') rfl (by decide)
  · exact ((analyzeRequest_paths (some ['h', 'i']) (some ['x'])).2
      (by intro t ht; cases ht; decide)).1 ['x'] rfl (by decide)
  · exact ((analyzeRequest_paths (some ['h', 'i']) none).2
      (by intro t ht; cases ht; decide)).2 (Or.inl rfl)

/-- C6: in text (non-scanned) mode, when the locator returns null or
a span shorter than 200 characters, the analysis action does not
fail: the extracted text is discarded and the request is issued with
the whole document bytes, i.e. the action proceeds as whole-document
analysis. -/
theorem shortSpanFallsBackToDoc (pdfText : List Char) (chapters : List Chapter)
    (chapter : Chapter) (pdfBase64 : List Char) (hb : pdfBase64 ≠ [])
    (h : (match findChapterText pdfText chapter.title (nextChapterTitle chapters chapter) with
          | none => true
          | some t => decide (t.length < 200)) = true) :
    chapterAnalysisRequest false pdfText chapters chapter pdfBase64 =
      some (AnalyzeReq.docMode pdfBase64) := by
  unfold chapterAnalysisRequest
  cases hft : findChapterText pdfText chapter.title (nextChapterTitle chapters chapter) with
  | none =>
    unfold analyzeRequest fallbackDoc
    cases pdfBase64 with
    | nil => exact absurd rfl hb
    | cons b bs => simp
  | some t =>
    rw [hft] at h
    have h200 : t.length < 200 := by simpa using h
    unfold analyzeRequest fallbackDoc
    cases pdfBase64 with
    | nil => exact absurd rfl hb
    | cons b bs => simp [h200]

/-- Witness for C6: a title absent from a five-character text gives a
null locator result and the request falls back to document bytes. -/
theorem shortSpanFallsBackToDoc_witness :
    chapterAnalysisRequest false ("hello".data) [⟨"1".data, "zzz".data, []⟩]
        ⟨"1".data, "zzz".data, []⟩ ['x'] = some (AnalyzeReq.docMode ['x']) :=
  shortSpanFallsBackToDoc ("hello".data) [⟨"1".data, "zzz".data, []⟩]
    ⟨"1".data, "zzz".data, []⟩ ['x'] (by decide) (by decide)

/-- Auxiliary: the Int16 view holds half as many samples as there are
bytes. -/
theorem pcmSamples_length : ∀ l : List Nat, (pcmSamples l).length = l.length / 2
  | [] => rfl
  | [_] => by simp [pcmSamples]
  | lo :: hi :: rest => by
    simp only [pcmSamples, List.length_cons, pcmSamples_length rest]
    omega

/-- Auxiliary: the i-th sample of the Int16 view is assembled from
bytes 2i and 2i+1. -/
theorem pcmSamples_getD : ∀ (l : List Nat) (i : Nat), i < l.length / 2 →
    (pcmSamples l).getD i 0 = int16FromLE (l.getD (2 * i) 0) (l.getD (2 * i + 1) 0)
  | [], i, h => by
    simp only [List.length_nil] at h
    omega
  | [_], i, h => by
    simp only [List.length_cons, List.length_nil] at h
    omega
  | lo :: hi :: rest, 0, _ => rfl
  | lo :: hi :: rest, i + 1, h => by
    have hi2 : i < rest.length / 2 := by
      simp only [List.length_cons] at h
      omega
    have ih := pcmSamples_getD rest i hi2
    have e1 : 2 * (i + 1) = 2 * i + 1 + 1 := by ring
    have e2 : 2 * (i + 1) + 1 = 2 * i + 1 + 1 + 1 := by ring
    simp only [pcmSamples, List.getD_cons_succ, e1, e2]
    exact ih

/-- Auxiliary: a 16-bit little-endian sample lies in the signed
16-bit range. -/
theorem int16FromLE_bounds (lo hi : Nat) :
    -32768 ≤ int16FromLE lo hi ∧ int16FromLE lo hi ≤ 32767 := by
  unfold int16FromLE
  have h1 : lo % 256 < 256 := Nat.mod_lt _ (by norm_num)
  have h2 : hi % 256 < 256 := Nat.mod_lt _ (by norm_num)
  split <;> constructor <;> omega

/-- Auxiliary: dividing a signed 16-bit value by 32768 lands in
[-1, 1]. -/
theorem sampleBounds (s : Int) (h1 : -32768 ≤ s) (h2 : s ≤ 32767) :
    -1 ≤ (s : ℚ) / 32768 ∧ (s : ℚ) / 32768 ≤ 1 := by
  constructor
  · rw [le_div_iff₀ (by norm_num : (0 : ℚ) < 32768)]
    have : (-32768 : ℚ) ≤ (s : ℚ) := by exact_mod_cast h1
    linarith
  · rw [div_le_one (by norm_num : (0 : ℚ) < 32768)]
    have : (s : ℚ) ≤ 32767 := by exact_mod_cast h2
    linarith

/-- C8: decodeAudioData reads its input bytes as 16-bit little-endian
signed mono samples at 24000 Hz, the i-th output sample is the i-th
input sample divided by 32768, and every output sample lies in
[-1, 1]. -/
theorem decodeAudioData_spec (data : List Nat) (h : data.length % 2 = 0) :
    ∃ buf, decodeAudioData data = some buf
      ∧ buf.sampleRate = 24000 ∧ buf.numChannels = 1
      ∧ buf.samples.length = data.length / 2
      ∧ ∀ i, i < data.length / 2 →
          buf.samples.getD i 0 =
            (int16FromLE (data.getD (2 * i) 0) (data.getD (2 * i + 1) 0) : ℚ) / 32768
          ∧ -1 ≤ buf.samples.getD i 0 ∧ buf.samples.getD i 0 ≤ 1 := by
  refine ⟨{ sampleRate := 24000, numChannels := 1,
            samples := (pcmSamples data).map (fun s : Int => (s : ℚ) / 32768) },
    ?_, rfl, rfl, ?_, ?_⟩
  · unfold decodeAudioData
    rw [if_pos h]
  · rw [List.length_map, pcmSamples_length]
  · intro i hi
    have hlen : i < (pcmSamples data).length := by
      rw [pcmSamples_length]
      exact hi
    have hmaplen : i < ((pcmSamples data).map (fun s : Int => (s : ℚ) / 32768)).length := by
      rw [List.length_map]
      exact hlen
    have e1 : ((pcmSamples data).map (fun s : Int => (s : ℚ) / 32768)).getD i 0
        = (((pcmSamples data).getD i 0 : Int) : ℚ) / 32768 := by
      rw [List.getD_eq_getElem _ _ hmaplen, List.getElem_map,
          List.getD_eq_getElem _ _ hlen]
    have hb := int16FromLE_bounds (data.getD (2 * i) 0) (data.getD (2 * i + 1) 0)
    have hv := pcmSamples_getD data i hi
    refine ⟨?_, ?_, ?_⟩
    · rw [e1, hv]
    · rw [e1, hv]
      exact (sampleBounds _ hb.1 hb.2).1
    · rw [e1, hv]
      exact (sampleBounds _ hb.1 hb.2).2

/-- Witness for C8: six bytes decode to the three samples 0,
32767/32768 and -1. -/
theorem decodeAudioData_spec_witness :
    ∃ buf, decodeAudioData [0, 0, 255, 127, 0, 128] = some buf
      ∧ buf.sampleRate = 24000 ∧ buf.numChannels = 1
      ∧ buf.samples.length = ([0, 0, 255, 127, 0, 128] : List Nat).length / 2
      ∧ ∀ i, i < ([0, 0, 255, 127, 0, 128] : List Nat).length / 2 →
          buf.samples.getD i 0 =
            (int16FromLE (([0, 0, 255, 127, 0, 128] : List Nat).getD (2 * i) 0)
              (([0, 0, 255, 127, 0, 128] : List Nat).getD (2 * i + 1) 0) : ℚ) / 32768
          ∧ -1 ≤ buf.samples.getD i 0 ∧ buf.samples.getD i 0 ≤ 1 :=
  decodeAudioData_spec [0, 0, 255, 127, 0, 128] (by decide)

/-- C9: removing the active session activates the first session of
the remaining newest-first collection when at least one remains, and
returns the application to the upload state when none remain;
removing a non-active session never changes which session is
active. -/
theorem removeSession_invariant (st : AppState) (sid : List Char) :
    (st.activeSessionId = some sid →
        (∀ s rest, st.sessions.filter (fun x => (x.id != sid)) = s :: rest →
            (removeSession st sid).activeSessionId = some s.id
            ∧ (removeSession st sid).step = AppStep.chapters
            ∧ (removeSession st sid).sessions = s :: rest)
        ∧ (st.sessions.filter (fun x => (x.id != sid)) = [] →
            (removeSession st sid).activeSessionId = none
            ∧ (removeSession st sid).step = AppStep.upload
            ∧ (removeSession st sid).sessions = []))
    ∧ (st.activeSessionId ≠ some sid →
        (removeSession st sid).activeSessionId = st.activeSessionId
        ∧ (removeSession st sid).sessions
            = st.sessions.filter (fun x => (x.id != sid))) := by
  constructor
  · intro hact
    constructor
    · intro s rest hf
      unfold removeSession
      rw [if_pos hact, hf]
      exact ⟨rfl, rfl, rfl⟩
    · intro hf
      unfold removeSession
      rw [if_pos hact, hf]
      exact ⟨rfl, rfl, rfl⟩
  · intro hact
    unfold removeSession
    rw [if_neg hact]
    exact ⟨rfl, rfl⟩

/-- Witness for C9: removing the active first of two sessions
activates the remaining one. -/
theorem removeSession_invariant_witness :
    (removeSession
        ⟨[⟨"1".data, [], 0, [], [], [], false⟩, ⟨"2".data, [], 0, [], [], [], false⟩],
          some ("1".data), false, AppStep.chapters, [], [], false, [], none, [],
          AnalysisType.standard, false, []⟩ ("1".data)).activeSessionId
      = some ("2".data) :=
  (((removeSession_invariant
      ⟨[⟨"1".data, [], 0, [], [], [], false⟩, ⟨"2".data, [], 0, [], [], [], false⟩],
        some ("1".data), false, AppStep.chapters, [], [], false, [], none, [],
        AnalysisType.standard, false, []⟩ ("1".data)).1 rfl).1
    ⟨"2".data, [], 0, [], [], [], false⟩ [] (by decide)).1

/-- C10: the audio-path decodeBase64 is total and drops a trailing
odd byte: the returned byte array is the even-length prefix of the
decoded binary, so its length is always even and the subsequent
Int16 view taken by decodeAudioData is always well-formed (the
decode never fails, whatever the payload length). -/
theorem decodeBase64_total (binaryString : List Nat) :
    (decodeBase64 binaryString).length
        = binaryString.length - binaryString.length % 2
    ∧ (decodeBase64 binaryString).length % 2 = 0
    ∧ decodeAudioData (decodeBase64 binaryString) ≠ none := by
  have hlen : (decodeBase64 binaryString).length
      = binaryString.length - binaryString.length % 2 := by
    unfold decodeBase64
    rw [List.length_map, List.length_take]
    have hle : binaryString.length - binaryString.length % 2 ≤ binaryString.length := by
      omega
    omega
  have heven : (decodeBase64 binaryString).length % 2 = 0 := by
    rw [hlen]
    omega
  refine ⟨hlen, heven, ?_⟩
  unfold decodeAudioData
  rw [if_pos heven]
  exact Option.some_ne_none _

/-- Witness for C10: a five-byte payload decodes to four bytes and
the audio decode succeeds. -/
theorem decodeBase64_total_witness :
    (decodeBase64 [1, 2, 3, 4, 5]).length = ([1, 2, 3, 4, 5] : List Nat).length - 1
    ∧ decodeAudioData (decodeBase64 [1, 2, 3, 4, 5]) ≠ none := by
  have h := decodeBase64_total [1, 2, 3, 4, 5]
  exact ⟨by rw [h.1]; decide, h.2.2⟩

/-- Auxiliary: bold removal passes a non-asterisk head through. -/
theorem removeBold_cons (c : Char) (t : List Char) (h : c ≠ '*') :
    removeBold (c :: t) = c :: removeBold t := by
  cases t with
  | nil => rfl
  | cons d rest => simp [removeBold, h]

/-- Auxiliary: bold removal is the identity on asterisk-free text. -/
theorem removeBold_id (t : List Char) (h : ∀ c ∈ t, c ≠ '*') :
    removeBold t = t := by
  induction t with
  | nil => rfl
  | cons c rest ih =>
    rw [removeBold_cons c rest (h c (List.mem_cons_self c rest)),
        ih (fun x hx => h x (List.mem_cons_of_mem c hx))]

/-- Auxiliary: italics removal is the identity on asterisk-free
text. -/
theorem removeStars_id (t : List Char) (h : ∀ c ∈ t, c ≠ '*') :
    removeStars t = t := by
  unfold removeStars
  rw [List.filter_eq_self.mpr]
  intro a ha
  simp [h a ha]

/-- Auxiliary: header removal is the identity on hash-free text. -/
theorem removeHeadersAux_id : ∀ (fuel : Nat) (t : List Char),
    (∀ c ∈ t, c ≠ '#') → removeHeadersAux fuel t = t
  | 0, _, _ => rfl
  | _ + 1, [], _ => rfl
  | fuel + 1, c :: rest, h => by
    have hc : c ≠ '#' := h c (List.mem_cons_self c rest)
    simp only [removeHeadersAux, if_neg hc]
    rw [removeHeadersAux_id fuel rest (fun x hx => h x (List.mem_cons_of_mem c hx))]

/-- Auxiliary: backquote removal is the identity on
backquote-free text. -/
theorem removeBticks_id (t : List Char) (h : ∀ c ∈ t, c ≠ btickChar) :
    removeBticks t = t := by
  unfold removeBticks
  rw [List.filter_eq_self.mpr]
  intro a ha
  simp [h a ha]

/-- Auxiliary: link removal is the identity on text without opening
brackets. -/
theorem removeLinksAux_id : ∀ (fuel : Nat) (t : List Char),
    (∀ c ∈ t, c ≠ '[') → removeLinksAux fuel t = t
  | 0, _, _ => rfl
  | _ + 1, [], _ => rfl
  | fuel + 1, c :: rest, h => by
    have hc : c ≠ '[' := h c (List.mem_cons_self c rest)
    simp only [removeLinksAux, if_neg hc]
    rw [removeLinksAux_id fuel rest (fun x hx => h x (List.mem_cons_of_mem c hx))]

/-- Auxiliary: bullet replacement is the identity on text without
dashes and bullet characters. -/
theorem replaceBulletsAux_id : ∀ (fuel : Nat) (flag : Bool) (t : List Char),
    (∀ c ∈ t, isBulletClassChar c = false) → replaceBulletsAux fuel flag t = t
  | 0, _, _, _ => rfl
  | _ + 1, false, [], _ => rfl
  | _ + 1, true, [], _ => rfl
  | fuel + 1, false, c :: rest, h => by
    simp only [replaceBulletsAux]
    rw [replaceBulletsAux_id fuel (c == '\n') rest
      (fun x hx => h x (List.mem_cons_of_mem c hx))]
  | fuel + 1, true, c :: rest, h => by
    have hrest := fun x hx => h x (List.mem_cons_of_mem c hx)
    simp only [replaceBulletsAux]
    cases hd : (c :: rest).drop ((c :: rest).takeWhile isWs).length with
    | nil =>
      exact congrArg (fun l => c :: l) (replaceBulletsAux_id fuel (c == '\n') rest hrest)
    | cons b tail =>
      have hbmem : b ∈ c :: rest := by
        have : b ∈ (c :: rest).drop ((c :: rest).takeWhile isWs).length := by
          rw [hd]
          exact List.mem_cons_self b tail
        exact List.mem_of_mem_drop this
      have hb := h b hbmem
      cases tail with
      | nil =>
        exact congrArg (fun l => c :: l) (replaceBulletsAux_id fuel (c == '\n') rest hrest)
      | cons w r2 =>
        have hcond : (isBulletClassChar b && isWs w) = false := by
          simp [hb]
        simp only [hcond, Bool.false_eq_true, if_false, List.cons.injEq]
        exact ⟨trivial, replaceBulletsAux_id fuel (c == '\n') rest hrest⟩

/-- Auxiliary: newline collapsing is the identity on newline-free
text. -/
theorem collapseNewlinesAux_id : ∀ (fuel : Nat) (t : List Char),
    (∀ c ∈ t, c ≠ '\n') → collapseNewlinesAux fuel t = t
  | 0, _, _ => rfl
  | _ + 1, [], _ => rfl
  | fuel + 1, c :: rest, h => by
    have hc : c ≠ '\n' := h c (List.mem_cons_self c rest)
    simp only [collapseNewlinesAux, if_neg hc]
    rw [collapseNewlinesAux_id fuel rest (fun x hx => h x (List.mem_cons_of_mem c hx))]

/-- Auxiliary: the whole speech cleaning pipeline is the identity on
text made only of the letter a and the full stop. -/
theorem prepareTextForSpeech_id (t : List Char)
    (h : ∀ c ∈ t, c = 'a' ∨ c = '.') : prepareTextForSpeech t = t := by
  unfold prepareTextForSpeech removeHeaders removeLinks replaceBullets collapseNewlines
  rw [removeBold_id t (fun c hc => by rcases h c hc with rfl | rfl <;> decide),
      removeStars_id t (fun c hc => by rcases h c hc with rfl | rfl <;> decide),
      removeHeadersAux_id _ t (fun c hc => by rcases h c hc with rfl | rfl <;> decide),
      removeBticks_id t (fun c hc => by rcases h c hc with rfl | rfl <;> decide),
      removeLinksAux_id _ t (fun c hc => by rcases h c hc with rfl | rfl <;> decide),
      replaceBulletsAux_id _ true t
        (fun c hc => by rcases h c hc with rfl | rfl <;> decide),
      collapseNewlinesAux_id _ t (fun c hc => by rcases h c hc with rfl | rfl <;> decide)]

/-- Auxiliary: the request loop requests exactly the chunks with
nonempty trimmed content, in source order, keeping the returned
segments in that order. -/
theorem speechLoop_eq (tts : List Char → Option (List Nat)) :
    ∀ chunks : List (List Char),
      speechLoop tts chunks
        = (chunks.filter (fun c => !(trimChars c).isEmpty)).filterMap tts
  | [] => rfl
  | c :: cs => by
    by_cases ht : (trimChars c).isEmpty = true
    · simp [speechLoop, List.filter_cons, ht, speechLoop_eq tts cs]
    · cases htt : tts c with
      | some b =>
        simp [speechLoop, List.filter_cons, List.filterMap_cons, ht, htt,
          speechLoop_eq tts cs]
      | none =>
        simp [speechLoop, List.filter_cons, List.filterMap_cons, ht, htt,
          speechLoop_eq tts cs]

/-- Auxiliary: the segment concatenation is the list join. -/
theorem concatBytes_eq_flatten : ∀ l : List (List Nat), concatBytes l = l.flatten
  | [] => rfl
  | s :: ss => by simp [concatBytes, concatBytes_eq_flatten ss]

/-- Auxiliary: the sentence match list is never empty (the regex
always produces a final empty match at the end of the string). -/
theorem sentencesAux_ne_nil : ∀ (fuel : Nat) (t : List Char),
    t.length < fuel → sentencesAux fuel t ≠ []
  | 0, _, h => absurd h (by omega)
  | _ + 1, [], _ => by simp [sentencesAux]
  | fuel + 1, c :: rest, h => by
    simp only [sentencesAux]
    split
    · split
      · simp
      · exact sentencesAux_ne_nil fuel rest
          (by simp only [List.length_cons] at h; omega)
    · simp

/-- Auxiliary: the sentence list of any text is nonempty. -/
theorem sentencesOf_ne_nil (t : List Char) : sentencesOf t ≠ [] :=
  sentencesAux_ne_nil (t.length + 1) t (Nat.lt_succ_self _)

/-- Auxiliary: invariant of the greedy packing loop: every produced
chunk either fits the ceiling or is a single sentence, and every
chunk is a concatenation of whole sentences. -/
theorem buildChunks_mem (sents : List (List Char)) :
    ∀ (ss : List (List Char)) (cur : List Char),
      (∀ s ∈ ss, s ∈ sents) →
      (cur.length ≤ MAX_CHUNK_LENGTH ∨ cur ∈ sents ∨ cur = []) →
      (∃ ls : List (List Char), (∀ x ∈ ls, x ∈ sents) ∧ cur = ls.flatten) →
      ∀ c ∈ buildChunks ss cur,
        (c.length ≤ MAX_CHUNK_LENGTH ∨ c ∈ sents)
        ∧ ∃ ls : List (List Char), (∀ x ∈ ls, x ∈ sents) ∧ c = ls.flatten := by
  intro ss
  induction ss with
  | nil =>
    intro cur hss hcur hjoin c hc
    unfold buildChunks at hc
    by_cases ht : (trimChars cur).isEmpty = true
    · rw [if_pos ht] at hc
      exact absurd hc (List.not_mem_nil c)
    · rw [if_neg ht] at hc
      have hcc : c = cur := by simpa using hc
      subst hcc
      refine ⟨?_, hjoin⟩
      rcases hcur with h | h | h
      · exact Or.inl h
      · exact Or.inr h
      · subst h
        exact absurd (by decide : (trimChars ([] : List Char)).isEmpty = true) ht
  | cons s ss ih =>
    intro cur hss hcur hjoin c hc
    have hsmem : s ∈ sents := hss s (List.mem_cons_self s ss)
    have hss' : ∀ x ∈ ss, x ∈ sents := fun x hx => hss x (List.mem_cons_of_mem s hx)
    unfold buildChunks at hc
    by_cases hov : MAX_CHUNK_LENGTH < cur.length + s.length
    · rw [if_pos hov] at hc
      by_cases ht : (trimChars cur).isEmpty = true
      · rw [if_pos ht] at hc
        exact ih s hss' (Or.inr (Or.inl hsmem))
          ⟨[s], by simpa using hsmem, by simp⟩ c hc
      · rw [if_neg ht] at hc
        rcases List.mem_cons.mp hc with hcc | hc'
        · subst hcc
          refine ⟨?_, hjoin⟩
          rcases hcur with h | h | h
          · exact Or.inl h
          · exact Or.inr h
          · subst h
            exact absurd (by decide : (trimChars ([] : List Char)).isEmpty = true) ht
        · exact ih s hss' (Or.inr (Or.inl hsmem))
            ⟨[s], by simpa using hsmem, by simp⟩ c hc'
    · rw [if_neg hov] at hc
      have hlen : (cur ++ s).length ≤ MAX_CHUNK_LENGTH := by
        rw [List.length_append]
        omega
      obtain ⟨ls, hls, hcurj⟩ := hjoin
      refine ih (cur ++ s) hss' (Or.inl hlen) ⟨ls ++ [s], ?_, ?_⟩ c hc
      · intro x hx
        rcases List.mem_append.mp hx with hx | hx
        · exact hls x hx
        · rw [List.mem_singleton.mp hx]
          exact hsmem
      · simp [hcurj]

/-- Auxiliary: every chunk the packing loop emits has nonempty
trimmed content (blank candidates are dropped at emission). -/
theorem buildChunks_nonblank : ∀ (ss : List (List Char)) (cur : List Char),
    ∀ c ∈ buildChunks ss cur, (trimChars c).isEmpty = false
  | [], cur, c, hc => by
    unfold buildChunks at hc
    by_cases ht : (trimChars cur).isEmpty = true
    · rw [if_pos ht] at hc
      exact absurd hc (List.not_mem_nil c)
    · rw [if_neg ht] at hc
      have hcc : c = cur := by simpa using hc
      subst hcc
      cases hb : (trimChars c).isEmpty with
      | false => rfl
      | true => exact absurd hb ht
  | s :: ss, cur, c, hc => by
    unfold buildChunks at hc
    by_cases hov : MAX_CHUNK_LENGTH < cur.length + s.length
    · rw [if_pos hov] at hc
      by_cases ht : (trimChars cur).isEmpty = true
      · rw [if_pos ht] at hc
        exact buildChunks_nonblank ss s c hc
      · rw [if_neg ht] at hc
        rcases List.mem_cons.mp hc with hcc | hc'
        · subst hcc
          cases hb : (trimChars c).isEmpty with
          | false => rfl
          | true => exact absurd hb ht
        · exact buildChunks_nonblank ss s c hc'
    · rw [if_neg hov] at hc
      exact buildChunks_nonblank ss (cur ++ s) c hc

/-- Auxiliary: the packing loop partitions its sentence list into
consecutive blocks; the chunk list is, in order, the concatenation of
each block (the pending text prefixed to the first), with the blank
ones dropped.  So the chunks are contiguous and never split a
sentence. -/
theorem buildChunks_partition : ∀ (ss : List (List Char)) (cur : List Char),
    ∃ (b : List (List Char)) (bs : List (List (List Char))),
      (b :: bs).flatten = ss
      ∧ buildChunks ss cur
        = ((cur ++ b.flatten) :: bs.map (fun blk => blk.flatten)).filter
            (fun c => !(trimChars c).isEmpty) := by
  intro ss
  induction ss with
  | nil =>
    intro cur
    refine ⟨[], [], by simp, ?_⟩
    by_cases ht : (trimChars cur).isEmpty = true <;>
      simp [buildChunks, List.filter_cons, ht]
  | cons s ss ih =>
    intro cur
    by_cases hov : MAX_CHUNK_LENGTH < cur.length + s.length
    · obtain ⟨b, bs, hfl, heq⟩ := ih s
      simp only [List.flatten_cons] at hfl
      refine ⟨[], (s :: b) :: bs, ?_, ?_⟩
      · simp [List.flatten_cons, hfl]
      · unfold buildChunks
        rw [if_pos hov]
        by_cases ht : (trimChars cur).isEmpty = true
        · rw [if_pos ht, heq]
          simp [List.filter_cons, ht, List.flatten_cons]
        · rw [if_neg ht, heq]
          simp [List.filter_cons, ht, List.flatten_cons]
    · obtain ⟨b, bs, hfl, heq⟩ := ih (cur ++ s)
      simp only [List.flatten_cons] at hfl
      refine ⟨s :: b, bs, ?_, ?_⟩
      · simp [List.flatten_cons, hfl]
      · unfold buildChunks
        rw [if_neg hov, heq]
        simp [List.flatten_cons, List.append_assoc]

/-- C7 (amended): the chunked generateSpeech cleans the text of
markup; text within the 3000-character ceiling is one chunk; longer
text is split at sentence-ending punctuation into contiguous chunks
(the blocks of a partition of the sentence list, in order, so no
sentence is split across chunks), each within the ceiling unless it
is a single sentence that alone exceeds it; every emitted chunk has
nonempty trimmed content, so one request is issued per chunk strictly
in source order, and the returned raw sample bytes are concatenated
in that same order into one output buffer. -/
theorem generateSpeech_chunks (tts : List Char → Option (List Nat)) (text : List Char) :
    (MAX_CHUNK_LENGTH < (prepareTextForSpeech text).length →
        (∃ (b : List (List Char)) (bs : List (List (List Char))),
            (b :: bs).flatten = sentencesOf (prepareTextForSpeech text)
            ∧ chunkText (prepareTextForSpeech text)
              = (b.flatten :: bs.map (fun blk => blk.flatten)).filter
                  (fun c => !(trimChars c).isEmpty))
        ∧ (∀ c ∈ chunkText (prepareTextForSpeech text),
            (c.length ≤ MAX_CHUNK_LENGTH ∨ c ∈ sentencesOf (prepareTextForSpeech text))
            ∧ (trimChars c).isEmpty = false)
        ∧ speechLoop tts (chunkText (prepareTextForSpeech text))
            = (chunkText (prepareTextForSpeech text)).filterMap tts)
    ∧ ((prepareTextForSpeech text).length ≤ MAX_CHUNK_LENGTH →
        chunkText (prepareTextForSpeech text) = [prepareTextForSpeech text])
    ∧ (∀ b, generateSpeech tts text = some b →
        b = (((chunkText (prepareTextForSpeech text)).filter
            (fun c => !(trimChars c).isEmpty)).filterMap tts).flatten) := by
  refine ⟨?_, ?_, ?_⟩
  · intro hlong
    have hch : chunkText (prepareTextForSpeech text)
        = buildChunks (sentencesOf (prepareTextForSpeech text)) [] := by
      unfold chunkText
      rw [if_neg (not_le.mpr hlong)]
      rw [if_neg (fun his => sentencesOf_ne_nil (prepareTextForSpeech text)
        (List.isEmpty_iff.mp his))]
    refine ⟨?_, ?_, ?_⟩
    · obtain ⟨b, bs, hfl, heq⟩ :=
        buildChunks_partition (sentencesOf (prepareTextForSpeech text)) []
      refine ⟨b, bs, hfl, ?_⟩
      rw [hch, heq]
      simp
    · intro c hc
      rw [hch] at hc
      exact ⟨(buildChunks_mem (sentencesOf (prepareTextForSpeech text))
          (sentencesOf (prepareTextForSpeech text)) [] (fun s hs => hs)
          (Or.inr (Or.inr rfl)) ⟨[], by simp, rfl⟩ c hc).1,
        buildChunks_nonblank (sentencesOf (prepareTextForSpeech text)) [] c hc⟩
    · have hfil : (chunkText (prepareTextForSpeech text)).filter
          (fun c => !(trimChars c).isEmpty) = chunkText (prepareTextForSpeech text) :=
        List.filter_eq_self.mpr (fun a ha => by
          rw [hch] at ha
          simp [buildChunks_nonblank (sentencesOf (prepareTextForSpeech text)) [] a ha])
      rw [speechLoop_eq, hfil]
  · intro hshort
    unfold chunkText
    rw [if_pos hshort]
  · intro b hb
    unfold generateSpeech at hb
    by_cases he :
        (speechLoop tts (chunkText (prepareTextForSpeech text))).isEmpty = true
    · rw [if_pos he] at hb
      exact absurd hb (by simp)
    · rw [if_neg he] at hb
      have hbb := Option.some.inj hb
      rw [← hbb, concatBytes_eq_flatten, speechLoop_eq]

/-- Auxiliary: takeWhile passes a replicate prefix whose element
satisfies the predicate. -/
theorem takeWhile_replicate_append (p : Char → Bool) (a : Char) (ha : p a = true) :
    ∀ (n : Nat) (l : List Char),
      (List.replicate n a ++ l).takeWhile p = List.replicate n a ++ l.takeWhile p
  | 0, l => by simp
  | n + 1, l => by
    simp [List.replicate_succ, List.takeWhile_cons, ha,
      takeWhile_replicate_append p a ha n l]

/-- Auxiliary: dropWhile skips a replicate prefix whose element
satisfies the predicate. -/
theorem dropWhile_replicate_append (p : Char → Bool) (a : Char) (ha : p a = true) :
    ∀ (n : Nat) (l : List Char),
      (List.replicate n a ++ l).dropWhile p = l.dropWhile p
  | 0, l => by simp
  | n + 1, l => by
    simp [List.replicate_succ, List.dropWhile_cons, ha,
      dropWhile_replicate_append p a ha n l]

/-- Auxiliary: a run of letters closed by a full stop is matched as a
single sentence, followed by the final empty match. -/
theorem sentencesAux_replDot (n k : Nat) :
    sentencesAux (k + 2) (List.replicate (n + 1) 'a' ++ ['.'])
      = [List.replicate (n + 1) 'a' ++ ['.'], []] := by
  have hc : List.replicate (n + 1) 'a' ++ ['.']
      = 'a' :: (List.replicate n 'a' ++ ['.']) := by
    simp [List.replicate_succ]
  have htake : (List.replicate (n + 1) 'a' ++ ['.']).takeWhile (fun x => !isSentPunct x)
      = List.replicate (n + 1) 'a' := by
    rw [takeWhile_replicate_append (fun x => !isSentPunct x) 'a' (by decide)]
    rw [show (['.'] : List Char).takeWhile (fun x => !isSentPunct x) = [] from by decide]
    simp
  have hdrop : (List.replicate (n + 1) 'a' ++ ['.']).dropWhile (fun x => !isSentPunct x)
      = ['.'] := by
    rw [dropWhile_replicate_append (fun x => !isSentPunct x) 'a' (by decide)]
    decide
  have hemp : (List.replicate (n + 1) 'a').isEmpty = false := by
    simp [List.replicate_succ]
  rw [hc]
  show sentencesAux (k + 1 + 1) ('a' :: (List.replicate n 'a' ++ ['.'])) = _
  simp only [sentencesAux]
  rw [← hc, htake, hdrop]
  rw [show (['.'] : List Char).takeWhile isSentPunct = ['.'] from by decide,
      show (['.'] : List Char).dropWhile isSentPunct = [] from by decide]
  simp only [hemp, show (['.'] : List Char).isEmpty = false from by decide,
    Bool.or_false, Bool.false_eq_true, if_false]
  simp only [sentencesAux]

/-- Auxiliary: a run of letters closed by a full stop is already
trimmed. -/
theorem trimChars_replDot (n : Nat) :
    trimChars (List.replicate (n + 1) 'a' ++ ['.'])
      = List.replicate (n + 1) 'a' ++ ['.'] := by
  have hc : List.replicate (n + 1) 'a' ++ ['.']
      = 'a' :: (List.replicate n 'a' ++ ['.']) := by
    simp [List.replicate_succ]
  unfold trimChars
  have h1 : (List.replicate (n + 1) 'a' ++ ['.']).dropWhile isWs
      = List.replicate (n + 1) 'a' ++ ['.'] := by
    rw [hc, List.dropWhile_cons]
    simp [show isWs 'a' = false from by decide]
  rw [h1]
  have h2 : (List.replicate (n + 1) 'a' ++ ['.']).reverse
      = '.' :: (List.replicate (n + 1) 'a').reverse := by simp
  rw [h2, List.dropWhile_cons]
  simp [show isWs '.' = false from by decide]

/-- Auxiliary: a single oversized sentence followed by the final
empty match is packed into one oversized chunk. -/
theorem buildChunks_single (l : List Char) (h1 : MAX_CHUNK_LENGTH < l.length)
    (h2 : (trimChars l).isEmpty = false) :
    buildChunks [l, []] [] = [l] := by
  have c1 : MAX_CHUNK_LENGTH < List.length ([] : List Char) + l.length := by
    simpa using h1
  have c2 : (trimChars ([] : List Char)).isEmpty = true := by decide
  have c3 : MAX_CHUNK_LENGTH < l.length + List.length ([] : List Char) := by
    simpa using h1
  simp [buildChunks, c1, c2, c3, h2]

/-- Auxiliary: the 3002-character single-sentence text is chunked as
one oversized chunk. -/
theorem chunkText_replDot :
    chunkText (List.replicate 3001 'a' ++ ['.'])
      = [List.replicate 3001 'a' ++ ['.']] := by
  have hlen : (List.replicate 3001 'a' ++ ['.']).length = 3002 := by
    rw [List.length_append, List.length_replicate]
    rfl
  have hsent : sentencesOf (List.replicate 3001 'a' ++ ['.'])
      = [List.replicate 3001 'a' ++ ['.'], []] := by
    unfold sentencesOf
    rw [hlen]
    exact sentencesAux_replDot 3000 3001
  have htrim : trimChars (List.replicate 3001 'a' ++ ['.'])
      = List.replicate 3001 'a' ++ ['.'] := trimChars_replDot 3000
  have hbne : List.replicate 3001 'a' ++ ['.'] ≠ [] := by
    intro h
    have h0 := congrArg List.length h
    rw [hlen] at h0
    exact absurd h0 (by decide)
  have hbe : (List.replicate 3001 'a' ++ ['.']).isEmpty = false := by
    cases hb : (List.replicate 3001 'a' ++ ['.']).isEmpty with
    | false => rfl
    | true => exact absurd (List.isEmpty_iff.mp hb) hbne
  unfold chunkText
  rw [if_neg (by rw [hlen]; decide)]
  rw [hsent]
  rw [if_neg (by decide)]
  exact buildChunks_single (List.replicate 3001 'a' ++ ['.'])
    (by rw [hlen]; decide) (by rw [htrim]; exact hbe)

/-- C7 counterexample: a cleaned text of 3002 characters forming one
sentence is chunked as a single chunk of 3002 characters, exceeding
the 3000-character ceiling the claim asserts for every chunk. -/
theorem chunkText_oversized_counterexample :
    chunkText (prepareTextForSpeech (List.replicate 3001 'a' ++ ['.']))
      = [List.replicate 3001 'a' ++ ['.']]
    ∧ MAX_CHUNK_LENGTH < (List.replicate 3001 'a' ++ ['.']).length := by
  have hid := prepareTextForSpeech_id (List.replicate 3001 'a' ++ ['.'])
    (fun c hc => by
      rcases List.mem_append.mp hc with h | h
      · exact Or.inl (List.eq_of_mem_replicate h)
      · exact Or.inr (List.mem_singleton.mp h))
  constructor
  · rw [hid]
    exact chunkText_replDot
  · rw [show (List.replicate 3001 'a' ++ ['.']).length = 3002 from by
      rw [List.length_append, List.length_replicate]; rfl]
    decide

/-- Witness for C7 (amended): a short text is one chunk, one request
is issued for it and its bytes form the whole output. -/
theorem generateSpeech_chunks_witness :
    generateSpeech (fun c => some [c.length]) ("Go now. Stop.".data) = some [13]
    ∧ [13] = (((chunkText (prepareTextForSpeech ("Go now. Stop.".data))).filter
        (fun c => !(trimChars c).isEmpty)).filterMap
          (fun c => some [c.length])).flatten := by
  constructor
  · decide
  · exact (generateSpeech_chunks (fun c => some [c.length]) ("Go now. Stop.".data)).2.2
      [13] (by decide)

end BookMind
